import Mathlib

/-!
Verification of the repository's two logical units.

The tour engine (`buildTour`, notation conversions, traversal views, quiz
checking) is described by the specification; its Python/HTML implementation is
not among the extracted source files, so those operations are modelled from the
spec, as marked on each definition.  The imposter trivia round logic
(`shuffle`, `sampleFacts`, `createRound`) is embedded directly from
`imposter_fact_game.js`; each `Math.random()` call is modelled by consuming one
number from an explicit supply list (an element `x` drawn with bound `b`
yields `x % b`, ranging over exactly the values `Math.floor(Math.random()*b)`
can take; an exhausted supply yields 0).
-/

namespace KnightRepo

/-- Modelled from the spec: a board position, a pair of zero-based
coordinates (file, rank), each valid when in [0,7]. -/
abbrev Square : Type := Nat × Nat

deriving instance DecidableEq for Except

/-- Modelled from the spec: both coordinates of a valid Square lie in [0,7]. -/
def validSquare (s : Square) : Prop := s.1 < 8 ∧ s.2 < 8

instance : DecidablePred validSquare := fun _ => instDecidableAnd

/-- Modelled from the spec: the error taxonomy of §7 (`TourIncomplete`
carrying the partial path length, `InvalidNotation`, `OutOfRange` carrying the
offending index). -/
inductive CoreError : Type where
  | tourIncomplete (partialLength : Nat)
  | invalidNotation
  | outOfRange (requested : Int)
deriving DecidableEq

/-- Modelled from the spec: the file letters, position `i` holding the letter
of file `i` (file 0→'a' … 7→'h'). -/
def fileChars : List Char := ['a', 'b', 'c', 'd', 'e', 'f', 'g', 'h']

/-- Modelled from the spec: the rank digits, position `i` holding the digit of
rank `i` (rank 0→'1' … 7→'8'). -/
def rankChars : List Char := ['1', '2', '3', '4', '5', '6', '7', '8']

/-- Modelled from the spec: algebraic notation of a Square, file letter then
rank digit. -/
def squareToNotation (s : Square) : String :=
  ⟨[fileChars.getD s.1 'a', rankChars.getD s.2 '1']⟩

/-- A notation string is well formed when it is exactly a file letter a–h
followed by a rank digit 1–8. -/
def wellFormedNotation (n : String) : Bool :=
  match n.data with
  | [f, r] => fileChars.contains f && rankChars.contains r
  | _ => false

/-- Modelled from the spec: parse algebraic notation; a string of the wrong
length, or with file outside a–h or rank outside 1–8, fails with
`InvalidNotation`. -/
def notationToSquare (n : String) : Except CoreError Square :=
  match n.data with
  | [f, r] =>
    if fileChars.contains f && rankChars.contains r then
      .ok (fileChars.indexOf f, rankChars.indexOf r)
    else
      .error .invalidNotation
  | _ => .error .invalidNotation

/-- Modelled from the spec: the eight knight-move offsets (Δfile, Δrank) ∈
{(±1,±2), (±2,±1)}, in the documented canonical coordinate-sorted priority
order used for candidate generation and first-minimum tie-breaking. -/
def knightOffsets : List (Int × Int) :=
  [(-2, -1), (-2, 1), (-1, -2), (-1, 2), (1, -2), (1, 2), (2, -1), (2, 1)]

/-- Modelled from the spec: the legal knight moves from a square that stay on
the 8×8 board, generated in the documented offset priority order. -/
def knightMoves (s : Square) : List Square :=
  knightOffsets.filterMap fun d =>
    let f : Int := (s.1 : Int) + d.1
    let r : Int := (s.2 : Int) + d.2
    if 0 ≤ f ∧ f < 8 ∧ 0 ≤ r ∧ r < 8 then some (f.toNat, r.toNat) else none

/-- Modelled from the spec: Warnsdorff degree of a candidate — the number of
onward legal moves from it to squares not on the visited path. -/
def onwardDegree (path : List Square) (c : Square) : Nat :=
  ((knightMoves c).filter fun d => !(path.contains d)).length

/-- First-minimum-wins selection: keep the earliest candidate, replacing it
only when a strictly smaller score appears later. -/
def pickMin (score : Square → Nat) : List Square → Option Square
  | [] => none
  | c :: rest => some (rest.foldl (fun best x => if score x < score best then x else best) c)

/-- Modelled from the spec: one Warnsdorff step — among unvisited legal knight
destinations of the current square, the first one (in the documented offset
order) of minimal onward degree; `none` at a dead end. -/
def warnsdorffNext (path : List Square) (cur : Square) : Option Square :=
  pickMin (onwardDegree path) ((knightMoves cur).filter fun c => !(path.contains c))

/-- Modelled from the spec: run up to `fuel` further Warnsdorff steps,
extending the visited path, stopping early at a dead end. -/
def tourLoop : Nat → List Square → Square → List Square
  | 0, path, _ => path
  | fuel + 1, path, cur =>
    match warnsdorffNext path cur with
    | none => path
    | some c => tourLoop fuel (path ++ [c]) c

/-- Modelled from the spec: the greedy Warnsdorff path from a start square —
the start followed by up to 63 further steps. -/
def warnsdorffPath (start : Square) : List Square :=
  tourLoop 63 [start] start

/-- Modelled from the spec: build the tour; succeed only with all 64 squares
visited, otherwise fail with `TourIncomplete` naming the partial path length
reached. -/
def buildTour (start : Square) : Except CoreError (List Square) :=
  let p := warnsdorffPath start
  if p.length = 64 then .ok p else .error (.tourIncomplete p.length)

/-- Two squares differ by a legal knight move: (Δfile, Δrank) ∈
{(±1,±2), (±2,±1)}. -/
def knightStep (a b : Square) : Prop :=
  ((a.1 : Int) - b.1, (a.2 : Int) - b.2) ∈
    ([(-2, -1), (-2, 1), (-1, -2), (-1, 2), (1, -2), (1, 2), (2, -1), (2, 1)] :
      List (Int × Int))

instance : ∀ a b, Decidable (knightStep a b) := fun _ _ => inferInstanceAs (Decidable (_ ∈ _))

/-- Modelled from the spec: forward traversal view of a tour, steps 0..63. -/
def forwardSequence (tour : List Square) : List Square := tour

/-- Modelled from the spec: reverse traversal view of a tour, steps 63..0. -/
def reverseSequence (tour : List Square) : List Square := tour.reverse

/-- Modelled from the spec: the first `n` squares of a tour; `n` outside
[0,64] fails with `OutOfRange`. -/
def squaresAtPrefix (tour : List Square) (n : Int) : Except CoreError (List Square) :=
  if n < 0 ∨ 64 < n then .error (.outOfRange n) else .ok (tour.take n.toNat)

/-- Modelled from the spec: transient quiz state over a Tour — current step
index, direction flag, and the correct/incorrect tallies so far. -/
structure QuizSession where
  tour : List Square
  reverseDir : Bool
  stepIndex : Nat
  correctCount : Nat
  incorrectCount : Nat
deriving DecidableEq

/-- Modelled from the spec: the traversal order a session walks, per its
direction flag. -/
def sessionOrder (s : QuizSession) : List Square :=
  if s.reverseDir then s.tour.reverse else s.tour

/-- Modelled from the spec: submit a guessed next square given in notation.
Malformed input fails with `InvalidNotation` and the session is returned
unchanged; otherwise the guess is compared with the square at `stepIndex + 1`
in the traversal direction, the matching tally is incremented and the step
index advances. -/
def submitGuess (s : QuizSession) (guess : String) :
    Except CoreError (Bool × Square) × QuizSession :=
  match notationToSquare guess with
  | .error e => (.error e, s)
  | .ok g =>
    match (sessionOrder s).get? (s.stepIndex + 1) with
    | none => (.error (.outOfRange (s.stepIndex + 1)), s)
    | some expected =>
      if g = expected then
        (.ok (true, expected),
          { s with stepIndex := s.stepIndex + 1, correctCount := s.correctCount + 1 })
      else
        (.ok (false, expected),
          { s with stepIndex := s.stepIndex + 1, incorrectCount := s.incorrectCount + 1 })

/-- The topic fact and prompt lists of `FACT_SETS` in `imposter_fact_game.js`,
keyed by topic name, in the object's insertion order. -/
def FACT_SETS : List (String × List String) := [
  ("space", [
    "A day on Venus is longer than an entire Venusian year because the planet rotates incredibly slowly.",
    "If you could fly a plane straight up, it would only take a little over an hour to reach outer space.",
    "Neutron stars are so dense that a teaspoon of material from one would weigh billions of tonnes.",
    "Footprints left on the moon could last for millions of years because the moon has no atmosphere or weather."]),
  ("animals", [
    "Octopuses have three hearts and blue blood that relies on copper instead of iron to carry oxygen.",
    "Cows form best friends and experience measurable stress when they are separated from them.",
    "Capybaras are so chill that in Japan some hot springs let them bathe with human visitors every winter.",
    "Male seahorses go through labor and give birth to hundreds of babies at once."]),
  ("food", [
    "Honey never spoils; archaeologists have found jars in ancient tombs that are still perfectly edible.",
    "Ketchup was sold as medicine in the 1830s and was marketed as a cure for indigestion.",
    "Bananas are berries, botanically speaking, while strawberries are not.",
    "Worcestershire sauce is fermented with anchovies that dissolve almost completely during the process."]),
  ("history", [
    "Napoleon was once attacked by a horde of rabbits during a planned hunting expedition gone wrong.",
    "In 1976, Los Angeles tried to paint its famous Hollywood sign yellow and red for the bicentennial celebrations.",
    "Oxford University is older than the Aztec Empire by at least two centuries.",
    "The shortest war in history ended after about 38 minutes between Britain and Zanzibar in 1896."]),
  ("tech", [
    "The very first webcam pointed at a coffee pot at Cambridge so researchers could check if it was empty without walking over.",
    "USB was intentionally designed so you can try to plug it in up to three times before it actually fits.",
    "NASA's Apollo guidance computers had less processing power than a modern pocket calculator.",
    "The first alarm clock could only ring at 4 a.m.; the inventor was a man who had to wake up early for work."]),
  ("tongue_twisters", [
    "Recite ‘Unique New York’ five times fast without stumbling.",
    "Say ‘red leather, yellow leather’ six times with perfect clarity.",
    "Deliver ‘She sells seashells by the seashore’ while keeping eye contact with the group.",
    "Three times quickly, say ‘Irish wristwatch’ without laughing at yourself."]),
  ("try_not_to_laugh", [
    "Tell the group your most ridiculous childhood snack combination with a perfectly straight face.",
    "Read this groaner without breaking: “I used to be a baker, but I couldn’t make enough dough.”",
    "Stare down the player to your left and say, “Serious scientists seriously study silly string,” without cracking up.",
    "Share the silliest animal fact you know, but act like it’s a Nobel Prize discovery."])]

/-- One `Math.random()`-driven choice: `Math.floor(Math.random() * bound)`
ranges over 0..bound-1 (and is 0 when bound = 0); the supply provides the
value, 0 once exhausted. -/
def draw (supply : List Nat) (bound : Nat) : Nat × List Nat :=
  match supply with
  | [] => (0, [])
  | x :: rest => (if bound = 0 then 0 else x % bound, rest)

/-- The JS destructuring swap `[a[i], a[j]] = [a[j], a[i]]` on a list. -/
def listSwap {α : Type} (l : List α) (i j : Nat) : List α :=
  match l.get? i, l.get? j with
  | some a, some b => (l.set i b).set j a
  | _, _ => l

/-- The Fisher–Yates loop of `shuffle`: the index `i` runs down from
`array.length - 1` to 1, each step swapping position `i` with a drawn
position `j` in [0, i]. -/
def shuffleLoop {α : Type} : List Nat → List α → Nat → List α × List Nat
  | supply, l, 0 => (l, supply)
  | supply, l, i + 1 =>
    let p := draw supply (i + 2)
    shuffleLoop p.2 (listSwap l (i + 1) p.1) i

/-- `shuffle` from `imposter_fact_game.js`: Fisher–Yates over the array,
driven by the random supply. -/
def shuffle {α : Type} (supply : List Nat) (l : List α) : List α × List Nat :=
  shuffleLoop supply l (l.length - 1)

/-- The `while (pool.length < count)` padding loop of `sampleFacts`: each
iteration pushes `facts[Math.floor(Math.random() * facts.length)]`. -/
def padLoop {α : Type} [Inhabited α] (facts : List α) :
    List Nat → List α → Nat → List α × List Nat
  | supply, pool, 0 => (pool, supply)
  | supply, pool, fuel + 1 =>
    let p := draw supply facts.length
    padLoop facts p.2 (pool ++ [facts.getD p.1 default]) fuel

/-- `sampleFacts` from `imposter_fact_game.js`: empty for `count <= 0`; a
prefix of a shuffled copy when enough facts exist; otherwise a shuffled copy
padded with uniformly drawn facts up to `count`. -/
def sampleFacts {α : Type} [Inhabited α] (supply : List Nat) (facts : List α)
    (count : Int) : List α × List Nat :=
  if count ≤ 0 then ([], supply)
  else if count ≤ (facts.length : Int) then
    let p := shuffle supply facts
    (p.1.take count.toNat, p.2)
  else
    let p := shuffle supply facts
    let q := padLoop facts p.2 p.1 (count.toNat - facts.length)
    (q.1.take count.toNat, q.2)

/-- A briefing entry pushed by `createRound`: the imposter flag and, for
non-imposters, the JS `prompt: facts[factIndex]` (`none` standing for the JS
`undefined` of an out-of-range index). -/
structure Assignment where
  isImposter : Bool
  prompt : Option String
deriving DecidableEq

/-- The assignment loop of `createRound`: player indices counting up from `i`,
the imposter pushed with no prompt, every other player pushed with the next
sampled fact. -/
def assignLoop (facts : List String) (imposterIndex : Nat) :
    Nat → Nat → Nat → List Assignment
  | _, _, 0 => []
  | i, factIndex, remaining + 1 =>
    if i = imposterIndex then
      ⟨true, none⟩ :: assignLoop facts imposterIndex (i + 1) factIndex remaining
    else
      ⟨false, facts.get? factIndex⟩ ::
        assignLoop facts imposterIndex (i + 1) (factIndex + 1) remaining

/-- The round object `createRound` returns: topic, imposter index,
assignments. -/
structure Round where
  topic : String
  imposterIndex : Nat
  assignments : List Assignment
deriving DecidableEq

/-- `createRound` from `imposter_fact_game.js`: resolve the topic ("random"
draws one of the keys), reject unknown topics, draw the imposter index, sample
`max(0, numPlayers - 1)` facts, and brief each player in turn. -/
def createRound (supply : List Nat) (numPlayers : Nat) (topicChoice : String) :
    Except String Round × List Nat :=
  let topics := FACT_SETS.map Prod.fst
  let tp :=
    if topicChoice = "random" then
      let p := draw supply topics.length
      (topics.getD p.1 "", p.2)
    else (topicChoice, supply)
  match FACT_SETS.lookup tp.1 with
  | none => (.error "Unknown topic", tp.2)
  | some factList =>
    let ip := draw tp.2 numPlayers
    let fp := sampleFacts ip.2 factList (max 0 ((numPlayers : Int) - 1))
    (.ok ⟨tp.1, ip.1, assignLoop fp.1 ip.1 0 0 numPlayers⟩, fp.2)

/-! Helper lemmas about the tour construction. -/

lemma foldlMin_mem (f : Square → Nat) :
    ∀ (rest : List Square) (c : Square),
      rest.foldl (fun best x => if f x < f best then x else best) c ∈ c :: rest := by
  intro rest
  induction rest with
  | nil => intro c; simp
  | cons x xs ih =>
    intro c
    simp only [List.foldl_cons]
    have h := ih (if f x < f c then x else c)
    rcases List.mem_cons.1 h with h1 | h1
    · rw [h1]
      split <;> simp
    · simp [h1]

lemma pickMin_mem {f : Square → Nat} {l : List Square} {c : Square}
    (h : pickMin f l = some c) : c ∈ l := by
  cases l with
  | nil => simp [pickMin] at h
  | cons a rest =>
    simp only [pickMin, Option.some.injEq] at h
    rw [← h]
    exact foldlMin_mem f rest a

lemma warnsdorffNext_mem {path : List Square} {cur c : Square}
    (h : warnsdorffNext path cur = some c) :
    c ∈ knightMoves cur ∧ c ∉ path := by
  have hm := pickMin_mem h
  rw [List.mem_filter] at hm
  refine ⟨hm.1, ?_⟩
  have := hm.2
  simp at this
  exact this

lemma mem_knightMoves_props {a b : Square} (h : b ∈ knightMoves a) :
    knightStep a b ∧ validSquare b := by
  unfold knightMoves at h
  rw [List.mem_filterMap] at h
  obtain ⟨d, hd, he⟩ := h
  dsimp only at he
  split at he
  case isFalse => exact absurd he (by simp)
  case isTrue hc =>
    obtain ⟨h1, h2, h3, h4⟩ := hc
    obtain ⟨rfl⟩ := Option.some.injEq _ _ ▸ he
    constructor
    · unfold knightStep
      simp only []
      have e1 : (a.1 : Int) - ((a.1 : Int) + d.1).toNat = -d.1 := by omega
      have e2 : (a.2 : Int) - ((a.2 : Int) + d.2).toNat = -d.2 := by omega
      rw [e1, e2]
      simp [knightOffsets] at hd
      rcases hd with rfl|rfl|rfl|rfl|rfl|rfl|rfl|rfl <;> decide
    · constructor <;> simp only [] <;> omega

lemma tourLoop_inv :
    ∀ (fuel : Nat) (path : List Square) (cur : Square),
      path.getLast? = some cur → path.Nodup →
      List.Chain' (fun a b => b ∈ knightMoves a) path →
      (tourLoop fuel path cur).Nodup ∧
      List.Chain' (fun a b => b ∈ knightMoves a) (tourLoop fuel path cur) ∧
      (∀ s ∈ tourLoop fuel path cur, s ∈ path ∨ validSquare s) := by
  intro fuel
  induction fuel with
  | zero =>
    intro path cur h1 h2 h3
    exact ⟨h2, h3, fun s hs => Or.inl hs⟩
  | succ n ih =>
    intro path cur h1 h2 h3
    rw [tourLoop]
    cases hn : warnsdorffNext path cur with
    | none => exact ⟨h2, h3, fun s hs => Or.inl hs⟩
    | some c =>
      obtain ⟨hmem, hnotin⟩ := warnsdorffNext_mem hn
      have hlast : (path ++ [c]).getLast? = some c := by
        simp [List.getLast?_concat]
      have hnodup : (path ++ [c]).Nodup := by
        simp [List.nodup_append, h2, hnotin]
      have hchain : List.Chain' (fun a b => b ∈ knightMoves a) (path ++ [c]) := by
        refine List.Chain'.append h3 (List.chain'_singleton c) ?_
        intro x hx y hy
        rw [h1] at hx
        simp at hx hy
        rw [← hx, ← hy]
        exact hmem
      obtain ⟨r1, r2, r3⟩ := ih (path ++ [c]) c hlast hnodup hchain
      refine ⟨r1, r2, fun s hs => ?_⟩
      rcases r3 s hs with h | h
      · rcases List.mem_append.1 h with h | h
        · exact Or.inl h
        · simp at h
          exact Or.inr (h ▸ (mem_knightMoves_props hmem).2)
      · exact Or.inr h

lemma tourLoop_length_le :
    ∀ (fuel : Nat) (path : List Square) (cur : Square),
      (tourLoop fuel path cur).length ≤ path.length + fuel := by
  intro fuel
  induction fuel with
  | zero => intro path cur; simp [tourLoop]
  | succ n ih =>
    intro path cur
    rw [tourLoop]
    cases hn : warnsdorffNext path cur with
    | none => simp
    | some c =>
      have := ih (path ++ [c]) c
      simp at this ⊢
      omega

lemma notationToSquare_malformed {n : String} (h : wellFormedNotation n = false) :
    notationToSquare n = .error .invalidNotation := by
  unfold wellFormedNotation at h
  unfold notationToSquare
  split
  next f r hd =>
    rw [hd] at h
    dsimp only at h
    rw [if_neg]
    intro hc
    rw [hc] at h
    simp at h
  next hd =>
    rfl

/-! Helper lemmas about the imposter-game embedding. -/

lemma getElem_cons_set_perm {α : Type} :
    ∀ (l : List α) (k : Nat) (hk : k < l.length) (a : α),
      List.Perm (l.get ⟨k, hk⟩ :: l.set k a) (a :: l) := by
  intro l
  induction l with
  | nil => intro k hk a; simp at hk
  | cons x xs ih =>
    intro k hk a
    cases k with
    | zero => exact List.Perm.swap a x xs
    | succ m =>
      have hm : m < xs.length := by simpa using hk
      have h1 : List.Perm (xs.get ⟨m, hm⟩ :: x :: xs.set m a)
          (x :: xs.get ⟨m, hm⟩ :: xs.set m a) :=
        List.Perm.swap x (xs.get ⟨m, hm⟩) (xs.set m a)
      have h2 : List.Perm (x :: xs.get ⟨m, hm⟩ :: xs.set m a) (x :: a :: xs) :=
        List.Perm.cons x (ih m hm a)
      have h3 : List.Perm (x :: a :: xs) (a :: x :: xs) := List.Perm.swap a x xs
      exact (h1.trans h2).trans h3

lemma listSwap_perm {α : Type} (l : List α) (i j : Nat) :
    List.Perm (listSwap l i j) l := by
  unfold listSwap
  cases hi : l.get? i with
  | none => exact List.Perm.refl l
  | some a =>
    cases hj : l.get? j with
    | none => exact List.Perm.refl l
    | some b =>
      rw [List.get?_eq_some] at hi hj
      obtain ⟨hi', ha⟩ := hi
      obtain ⟨hj', hb⟩ := hj
      have hj'' : j < (l.set i b).length := by simpa using hj'
      have hb' : (l.set i b).get ⟨j, hj''⟩ = b := by
        rcases eq_or_ne i j with rfl | hne
        · simp [List.get_eq_getElem, List.getElem_set_self]
        · have h2 : (l.set i b).get? j = some b := by
            rw [List.get?_set_ne b l hne, List.get?_eq_some]
            exact ⟨hj', hb⟩
          rw [List.get?_eq_some] at h2
          obtain ⟨_, he⟩ := h2
          exact he
      have h1 : List.Perm (l.get ⟨i, hi'⟩ :: l.set i b) (b :: l) :=
        getElem_cons_set_perm l i hi' b
      have h2 : List.Perm ((l.set i b).get ⟨j, hj''⟩ :: (l.set i b).set j a)
          (a :: l.set i b) :=
        getElem_cons_set_perm (l.set i b) j hj'' a
      rw [hb'] at h2
      rw [ha] at h1
      exact List.Perm.cons_inv (h2.trans h1)

lemma shuffleLoop_perm {α : Type} :
    ∀ (i : Nat) (supply : List Nat) (l : List α),
      List.Perm (shuffleLoop supply l i).1 l := by
  intro i
  induction i with
  | zero => intro supply l; exact List.Perm.refl l
  | succ n ih =>
    intro supply l
    rw [shuffleLoop]
    exact (ih _ _).trans (listSwap_perm l (n + 1) _)

lemma shuffle_perm {α : Type} (supply : List Nat) (l : List α) :
    List.Perm (shuffle supply l).1 l :=
  shuffleLoop_perm (l.length - 1) supply l

lemma draw_lt {supply : List Nat} {bound : Nat} (h : 0 < bound) :
    (draw supply bound).1 < bound := by
  cases supply with
  | nil => simpa [draw] using h
  | cons x rest =>
    simp only [draw, Nat.pos_iff_ne_zero.1 h, if_neg (Nat.pos_iff_ne_zero.1 h)]
    exact Nat.mod_lt x h

lemma padLoop_length {α : Type} [Inhabited α] (facts : List α) :
    ∀ (fuel : Nat) (supply : List Nat) (pool : List α),
      (padLoop facts supply pool fuel).1.length = pool.length + fuel := by
  intro fuel
  induction fuel with
  | zero => intro supply pool; rfl
  | succ n ih =>
    intro supply pool
    rw [padLoop, ih]
    simp
    omega

lemma padLoop_mem {α : Type} [Inhabited α] {facts : List α} (hf : facts ≠ []) :
    ∀ (fuel : Nat) (supply : List Nat) (pool : List α),
      ∀ x ∈ (padLoop facts supply pool fuel).1, x ∈ pool ∨ x ∈ facts := by
  intro fuel
  induction fuel with
  | zero => intro supply pool x hx; exact Or.inl hx
  | succ n ih =>
    intro supply pool x hx
    rw [padLoop] at hx
    have hlen : 0 < facts.length := List.length_pos.2 hf
    have hj : (draw supply facts.length).1 < facts.length := draw_lt hlen
    rcases ih _ _ x hx with h | h
    · rcases List.mem_append.1 h with h | h
      · exact Or.inl h
      · right
        simp at h
        rw [h]
        simp only [List.getElem?_eq_getElem hj, Option.getD_some]
        exact List.getElem_mem hj
    · exact Or.inr h

lemma sampleFacts_nonpos {α : Type} [Inhabited α] (supply : List Nat)
    (facts : List α) {count : Int} (h : count ≤ 0) :
    (sampleFacts supply facts count).1 = [] := by
  unfold sampleFacts
  rw [if_pos h]

lemma sampleFacts_length {α : Type} [Inhabited α] (supply : List Nat)
    (facts : List α) {count : Int} (h : 0 < count) :
    (sampleFacts supply facts count).1.length = count.toNat := by
  unfold sampleFacts
  rw [if_neg (by omega)]
  split
  case isTrue hle =>
    have := (shuffle_perm supply facts).length_eq
    simp [List.length_take, this]
    omega
  case isFalse hgt =>
    have h1 := (shuffle_perm supply facts).length_eq
    have h2 := padLoop_length facts (count.toNat - facts.length)
      (shuffle supply facts).2 (shuffle supply facts).1
    simp [List.length_take, h2, h1]
    omega

lemma sampleFacts_mem {α : Type} [Inhabited α] (supply : List Nat)
    {facts : List α} (hf : facts ≠ []) {count : Int} :
    ∀ x ∈ (sampleFacts supply facts count).1, x ∈ facts := by
  intro x hx
  unfold sampleFacts at hx
  split at hx
  case isTrue => simp at hx
  case isFalse =>
    split at hx
    case isTrue =>
      have := List.take_subset count.toNat (shuffle supply facts).1 hx
      exact (shuffle_perm supply facts).subset this
    case isFalse =>
      have hsub := List.take_subset count.toNat _ hx
      rcases padLoop_mem hf _ _ _ x hsub with h | h
      · exact (shuffle_perm supply facts).subset h
      · exact h

lemma sampleFacts_nodup {α : Type} [Inhabited α] (supply : List Nat)
    {facts : List α} {count : Int} (hc : 0 < count)
    (hle : count ≤ (facts.length : Int)) (hnd : facts.Nodup) :
    (sampleFacts supply facts count).1.Nodup := by
  unfold sampleFacts
  rw [if_neg (by omega), if_pos hle]
  exact ((List.take_sublist _ _).nodup ((shuffle_perm supply facts).nodup_iff.2 hnd))

lemma assignLoop_length (facts : List String) (imp : Nat) :
    ∀ (remaining i factIndex : Nat),
      (assignLoop facts imp i factIndex remaining).length = remaining := by
  intro remaining
  induction remaining with
  | zero => intro i fi; rfl
  | succ n ih =>
    intro i fi
    rw [assignLoop]
    split <;> simp [ih]

lemma assignLoop_countP (facts : List String) (imp : Nat) :
    ∀ (remaining i factIndex : Nat),
      (assignLoop facts imp i factIndex remaining).countP (fun a => a.isImposter) =
        if i ≤ imp ∧ imp < i + remaining then 1 else 0 := by
  intro remaining
  induction remaining with
  | zero =>
    intro i fi
    rw [if_neg (by omega)]
    rfl
  | succ n ih =>
    intro i fi
    rw [assignLoop]
    by_cases h : i = imp
    · subst h
      rw [if_pos rfl, List.countP_cons, ih]
      simp only [show ((fun a => a.isImposter) (⟨true, none⟩ : Assignment)) = true from rfl,
        if_true]
      split_ifs <;> omega
    · rw [if_neg h, List.countP_cons, ih]
      simp only [show ((fun a => a.isImposter) (⟨false, facts.get? fi⟩ : Assignment)) = false
        from rfl, Bool.false_eq_true, if_false]
      split_ifs <;> omega

lemma assignLoop_prompts (facts : List String) (imp : Nat) :
    ∀ (remaining i factIndex : Nat),
      (if i ≤ imp ∧ imp < i + remaining then factIndex + remaining ≤ facts.length + 1
        else factIndex + remaining ≤ facts.length) →
      ∀ a ∈ assignLoop facts imp i factIndex remaining,
        a.isImposter = false → a.prompt.isSome := by
  intro remaining
  induction remaining with
  | zero => intro i fi _ a ha; simp [assignLoop] at ha
  | succ n ih =>
    intro i fi hcond a ha hfalse
    rw [assignLoop] at ha
    by_cases h : i = imp
    · subst h
      rw [if_pos rfl] at ha
      rw [if_pos (by omega)] at hcond
      rcases List.mem_cons.1 ha with rfl | ha
      · simp at hfalse
      · refine ih (i + 1) fi ?_ a ha hfalse
        split <;> omega
    · rw [if_neg h] at ha
      rcases List.mem_cons.1 ha with rfl | ha
      · have hfi : fi < facts.length := by
          by_cases hw : i ≤ imp ∧ imp < i + (n + 1)
          · rw [if_pos hw] at hcond
            omega
          · rw [if_neg hw] at hcond
            omega
        simp [List.get?_eq_get hfi, List.getElem?_eq_getElem hfi]
      · refine ih (i + 1) (fi + 1) ?_ a ha hfalse
        by_cases hw : i ≤ imp ∧ imp < i + (n + 1)
        · rw [if_pos hw] at hcond
          split <;> omega
        · rw [if_neg hw] at hcond
          split <;> omega

lemma lookup_mem :
    ∀ {l : List (String × List String)} {k : String} {v : List String},
      l.lookup k = some v → (k, v) ∈ l := by
  intro l
  induction l with
  | nil => intro k v h; simp [List.lookup] at h
  | cons p t ih =>
    intro k v h
    obtain ⟨k', v'⟩ := p
    rw [List.lookup] at h
    split at h
    next hb =>
      obtain rfl : v' = v := by simpa using h
      obtain rfl : k = k' := by simpa using hb
      exact List.mem_cons_self _ _
    next =>
      right
      exact ih h

lemma FACT_SETS_lengths : ∀ p ∈ FACT_SETS, (p.2 : List String).length = 4 := by
  decide

lemma sampleFacts_pred_length (s : List Nat) (factList : List String)
    (numPlayers : Nat) (hN : 1 ≤ numPlayers) :
    (sampleFacts s factList (max 0 ((numPlayers : Int) - 1))).1.length = numPlayers - 1 := by
  rcases Nat.lt_or_ge numPlayers 2 with h2 | h2
  · obtain rfl : numPlayers = 1 := by omega
    rw [sampleFacts_nonpos _ _ (by omega)]
    rfl
  · rw [sampleFacts_length _ _ (by omega)]
    omega

lemma assignments_spec (facts : List String) (imp numPlayers : Nat)
    (himp : imp < numPlayers) (hflen : facts.length = numPlayers - 1) :
    (assignLoop facts imp 0 0 numPlayers).length = numPlayers ∧
    (assignLoop facts imp 0 0 numPlayers).countP (fun a => a.isImposter) = 1 ∧
    ∀ a ∈ assignLoop facts imp 0 0 numPlayers, a.isImposter = false → a.prompt.isSome := by
  refine ⟨assignLoop_length _ _ _ _ _, ?_, ?_⟩
  · rw [assignLoop_countP, if_pos ⟨Nat.zero_le _, by omega⟩]
  · intro a ha hfalse
    refine assignLoop_prompts _ _ numPlayers 0 0 ?_ a ha hfalse
    rw [if_pos ⟨Nat.zero_le _, by omega⟩, hflen]
    omega

/-! The claims. -/

/-- C1: every successful `buildTour` result is a sequence of exactly 64
board squares, pairwise distinct, every consecutive pair a legal knight move
apart. -/
theorem buildTour_ok_valid (start : Square) (t : List Square)
    (hv : validSquare start) (ht : buildTour start = .ok t) :
    t.length = 64 ∧ t.Nodup ∧ List.Chain' knightStep t ∧ ∀ s ∈ t, validSquare s := by
  unfold buildTour at ht
  dsimp only at ht
  split at ht
  case isFalse => exact absurd ht (by simp)
  case isTrue hlen =>
    obtain rfl : warnsdorffPath start = t := by
      simpa using ht
    obtain ⟨r1, r2, r3⟩ :=
      tourLoop_inv 63 [start] start (by simp) (by simp)
        (List.chain'_singleton start)
    refine ⟨hlen, r1, r2.imp ?_, fun s hs => ?_⟩
    · intro a b hab
      exact (mem_knightMoves_props hab).1
    · rcases r3 s hs with h | h
      · simp at h
        exact h ▸ hv
      · exact h

/-- Witness for C1 at the documented start square a1 = (0,0), where the
construction succeeds. -/
theorem buildTour_ok_valid_witness :
    validSquare ((0, 0) : Square) ∧
    buildTour ((0, 0) : Square) = .ok (warnsdorffPath (0, 0)) ∧
    ((warnsdorffPath ((0, 0) : Square)).length = 64 ∧
      (warnsdorffPath ((0, 0) : Square)).Nodup ∧
      List.Chain' knightStep (warnsdorffPath ((0, 0) : Square)) ∧
      ∀ s ∈ warnsdorffPath ((0, 0) : Square), validSquare s) := by
  have h : buildTour ((0, 0) : Square) = .ok (warnsdorffPath (0, 0)) := by decide
  exact ⟨by decide, h, buildTour_ok_valid (0, 0) _ (by decide) h⟩

/-- C2 counterexample: with zero players, `createRound` succeeds yet assigns
the bluffing role to nobody — the claim fails for N = 0. -/
theorem createRound_zero_players_counterexample :
    (∃ round rest, createRound [0, 0, 0, 0, 0] 0 "space" = (.ok round, rest)) ∧
    ((createRound [0, 0, 0, 0, 0] 0 "space").1.toOption.map
      (fun round => round.assignments.countP (fun a => a.isImposter))) ≠ some 1 := by
  constructor
  · exact ⟨⟨"space", 0, []⟩, [0, 0, 0, 0], by decide⟩
  · decide

/-- C2 (amended to N ≥ 1): for at least one player, a successful
`createRound` briefs exactly N players, exactly one of them as the imposter,
and every non-imposter briefing carries a defined prompt. -/
theorem createRound_assignments_spec (supply : List Nat) (numPlayers : Nat)
    (topicChoice : String) (round : Round) (rest : List Nat)
    (hN : 1 ≤ numPlayers)
    (h : createRound supply numPlayers topicChoice = (.ok round, rest)) :
    round.assignments.length = numPlayers ∧
    round.assignments.countP (fun a => a.isImposter) = 1 ∧
    ∀ a ∈ round.assignments, a.isImposter = false → a.prompt.isSome := by
  unfold createRound at h
  split at h <;> dsimp only at h <;> split at h
  next => simp at h
  next factList hlk =>
    simp only [Prod.mk.injEq, Except.ok.injEq] at h
    obtain ⟨rfl, rfl⟩ := h
    exact assignments_spec _ _ numPlayers (draw_lt (by omega))
      (sampleFacts_pred_length _ _ _ hN)
  next => simp at h
  next factList hlk =>
    simp only [Prod.mk.injEq, Except.ok.injEq] at h
    obtain ⟨rfl, rfl⟩ := h
    exact assignments_spec _ _ numPlayers (draw_lt (by omega))
      (sampleFacts_pred_length _ _ _ hN)

/-- Witness for C2 with three players on the "space" topic. -/
theorem createRound_assignments_spec_witness :
    1 ≤ 3 ∧
    createRound [0, 1, 2, 3, 4, 5] 3 "space" =
      (.ok ⟨"space", 0,
        [⟨true, none⟩,
          ⟨false, some "A day on Venus is longer than an entire Venusian year because the planet rotates incredibly slowly."⟩,
          ⟨false, some "Footprints left on the moon could last for millions of years because the moon has no atmosphere or weather."⟩]⟩,
        [4, 5]) ∧
    ((⟨"space", 0,
        [⟨true, none⟩,
          ⟨false, some "A day on Venus is longer than an entire Venusian year because the planet rotates incredibly slowly."⟩,
          ⟨false, some "Footprints left on the moon could last for millions of years because the moon has no atmosphere or weather."⟩]⟩ : Round).assignments.length = 3 ∧
      (⟨"space", 0,
        [⟨true, none⟩,
          ⟨false, some "A day on Venus is longer than an entire Venusian year because the planet rotates incredibly slowly."⟩,
          ⟨false, some "Footprints left on the moon could last for millions of years because the moon has no atmosphere or weather."⟩]⟩ : Round).assignments.countP (fun a => a.isImposter) = 1 ∧
      ∀ a ∈ (⟨"space", 0,
        [⟨true, none⟩,
          ⟨false, some "A day on Venus is longer than an entire Venusian year because the planet rotates incredibly slowly."⟩,
          ⟨false, some "Footprints left on the moon could last for millions of years because the moon has no atmosphere or weather."⟩]⟩ : Round).assignments,
        a.isImposter = false → a.prompt.isSome) := by
  have h : createRound [0, 1, 2, 3, 4, 5] 3 "space" =
      (.ok ⟨"space", 0,
        [⟨true, none⟩,
          ⟨false, some "A day on Venus is longer than an entire Venusian year because the planet rotates incredibly slowly."⟩,
          ⟨false, some "Footprints left on the moon could last for millions of years because the moon has no atmosphere or weather."⟩]⟩,
        [4, 5]) := by decide
  exact ⟨by omega, h, createRound_assignments_spec _ _ _ _ _ (by omega) h⟩

/-- C3: the notation conversions are mutually inverse — a valid square round
trips through its notation, and a well-formed notation string round trips
through its square. -/
theorem notation_roundTrip :
    (∀ s : Square, validSquare s → notationToSquare (squareToNotation s) = .ok s) ∧
    (∀ n : String, wellFormedNotation n = true →
      ∃ s : Square, notationToSquare n = .ok s ∧ squareToNotation s = n) := by
  constructor
  · rintro ⟨f, r⟩ ⟨h1, h2⟩
    interval_cases f <;> interval_cases r <;> decide
  · rintro ⟨data⟩ h
    rcases data with _ | ⟨f, _ | ⟨r, _ | ⟨x, t⟩⟩⟩
    · simp [wellFormedNotation] at h
    · simp [wellFormedNotation] at h
    · simp [wellFormedNotation, fileChars, rankChars] at h
      obtain ⟨hf, hr⟩ := h
      rcases hf with rfl|rfl|rfl|rfl|rfl|rfl|rfl|rfl <;>
        rcases hr with rfl|rfl|rfl|rfl|rfl|rfl|rfl|rfl <;>
        exact ⟨_, rfl, rfl⟩
    · simp [wellFormedNotation] at h

/-- Witness for C3 at the corner square (0,0) = a1 and the string "h8". -/
theorem notation_roundTrip_witness :
    (validSquare ((0, 0) : Square) ∧
      notationToSquare (squareToNotation (0, 0)) = .ok (0, 0)) ∧
    (wellFormedNotation "h8" = true ∧
      ∃ s : Square, notationToSquare "h8" = .ok s ∧ squareToNotation s = "h8") :=
  ⟨⟨by decide, notation_roundTrip.1 (0, 0) (by decide)⟩,
    ⟨by decide, notation_roundTrip.2 "h8" (by decide)⟩⟩

/-- C4: `buildTour` is deterministic — in this pure embedding it takes no
input other than the start square (the tie-break order is fixed in
`knightOffsets`), so two calls with equal start squares return identical
results. -/
theorem buildTour_deterministic (s₁ s₂ : Square) (h : s₁ = s₂) :
    buildTour s₁ = buildTour s₂ := by
  rw [h]

/-- Witness for C4 at the start square a1. -/
theorem buildTour_deterministic_witness :
    ((0, 0) : Square) = (0, 0) ∧
    buildTour ((0, 0) : Square) = buildTour ((0, 0) : Square) :=
  ⟨rfl, buildTour_deterministic (0, 0) (0, 0) rfl⟩

/-- C5: `buildTour` never returns a short tour as a success, and on failure
it reports `TourIncomplete` carrying exactly the partial path length reached,
which is then below 64. -/
theorem buildTour_complete_or_incomplete (start : Square) :
    (∀ t, buildTour start = .ok t → t.length = 64) ∧
    (∀ e, buildTour start = .error e →
      e = .tourIncomplete (warnsdorffPath start).length ∧
      (warnsdorffPath start).length < 64) := by
  constructor
  · intro t ht
    unfold buildTour at ht
    dsimp only at ht
    split at ht
    case isTrue hlen =>
      obtain rfl : warnsdorffPath start = t := by simpa using ht
      exact hlen
    case isFalse => exact absurd ht (by simp)
  · intro e he
    unfold buildTour at he
    dsimp only at he
    split at he
    case isTrue => exact absurd he (by simp)
    case isFalse hlen =>
      obtain rfl : CoreError.tourIncomplete (warnsdorffPath start).length = e := by
        simpa using he
      refine ⟨rfl, ?_⟩
      have hle : (warnsdorffPath start).length ≤ 64 := by
        have := tourLoop_length_le 63 [start] start
        unfold warnsdorffPath
        simpa using this
      omega

/-- Witness for C5 at the start square d1 = (3,0), where the heuristic
dead-ends after 60 squares. -/
theorem buildTour_complete_or_incomplete_witness :
    buildTour ((3, 0) : Square) = .error (.tourIncomplete 60) ∧
    CoreError.tourIncomplete 60 = .tourIncomplete (warnsdorffPath ((3, 0) : Square)).length ∧
    (warnsdorffPath ((3, 0) : Square)).length < 64 := by
  have h : buildTour ((3, 0) : Square) = .error (.tourIncomplete 60) := by decide
  obtain ⟨h1, h2⟩ := (buildTour_complete_or_incomplete (3, 0)).2 _ h
  exact ⟨h, h1, h2⟩

/-- C6 counterexample: the round depends on the ambient `Math.random` values
— two runs with identical declared inputs (player count 3, topic "space")
but different ambient random draws yield different rounds, so sampling is not
reproducible from the function's inputs; the API takes no generator or seed
parameter. -/
theorem createRound_ambient_random_counterexample :
    (createRound [0] 3 "space").1 ≠ (createRound [1] 3 "space").1 := by
  decide

/-- C6 (amended): the random selection is driven by the ambient global
`Math.random` stream, modelled here as an explicit supply; a round is
reproducible exactly when that ambient stream is also fixed along with the
inputs. -/
theorem createRound_reproducible_with_stream (s₁ s₂ : List Nat) (n₁ n₂ : Nat)
    (t₁ t₂ : String) (hs : s₁ = s₂) (hn : n₁ = n₂) (ht : t₁ = t₂) :
    createRound s₁ n₁ t₁ = createRound s₂ n₂ t₂ := by
  rw [hs, hn, ht]

/-- Witness for C6 at a fixed supply, player count and topic. -/
theorem createRound_reproducible_with_stream_witness :
    ([0] : List Nat) = [0] ∧ (3 : Nat) = 3 ∧ "space" = "space" ∧
    createRound [0] 3 "space" = createRound [0] 3 "space" :=
  ⟨rfl, rfl, rfl, createRound_reproducible_with_stream [0] [0] 3 3 "space" "space" rfl rfl rfl⟩

/-- C7: the reverse traversal view equals the forward view reversed,
element for element (both are non-mutating views: pure functions of the
tour). -/
theorem reverseSequence_eq_reverse_forward (tour : List Square) :
    reverseSequence tour = (forwardSequence tour).reverse :=
  rfl

/-- C8: on a full 64-square tour, `squaresAtPrefix` returns the first n
squares for n in [0,64] — the whole tour at 64, the empty list at 0 — and
fails with `OutOfRange` for any n outside [0,64]. -/
theorem squaresAtPrefix_spec (tour : List Square) (n : Int) (h : tour.length = 64) :
    (0 ≤ n → n ≤ 64 → squaresAtPrefix tour n = .ok (tour.take n.toNat)) ∧
    squaresAtPrefix tour 64 = .ok tour ∧
    squaresAtPrefix tour 0 = .ok [] ∧
    ((n < 0 ∨ 64 < n) → squaresAtPrefix tour n = .error (.outOfRange n)) := by
  refine ⟨?_, ?_, ?_, ?_⟩
  · intro h1 h2
    unfold squaresAtPrefix
    rw [if_neg (by omega)]
  · unfold squaresAtPrefix
    rw [if_neg (by omega)]
    have h64 : ((64 : Int).toNat) = 64 := rfl
    rw [h64, List.take_of_length_le (by omega)]
  · unfold squaresAtPrefix
    rw [if_neg (by omega)]
    rfl
  · intro h1
    unfold squaresAtPrefix
    rw [if_pos h1]

/-- Witness for C8 on a concrete 64-square list, at n = 5, 64, 0 and 65. -/
theorem squaresAtPrefix_spec_witness :
    ((List.range 64).map (fun i => ((i / 8, i % 8) : Square))).length = 64 ∧
    squaresAtPrefix ((List.range 64).map (fun i => ((i / 8, i % 8) : Square))) 5 =
      .ok (((List.range 64).map (fun i => ((i / 8, i % 8) : Square))).take (5 : Int).toNat) ∧
    squaresAtPrefix ((List.range 64).map (fun i => ((i / 8, i % 8) : Square))) 64 =
      .ok ((List.range 64).map (fun i => ((i / 8, i % 8) : Square))) ∧
    squaresAtPrefix ((List.range 64).map (fun i => ((i / 8, i % 8) : Square))) 0 = .ok [] ∧
    squaresAtPrefix ((List.range 64).map (fun i => ((i / 8, i % 8) : Square))) 65 =
      .error (.outOfRange 65) := by
  have h : ((List.range 64).map (fun i => ((i / 8, i % 8) : Square))).length = 64 := by decide
  exact ⟨h,
    (squaresAtPrefix_spec _ 5 h).1 (by norm_num) (by norm_num),
    (squaresAtPrefix_spec _ 65 h).2.1,
    (squaresAtPrefix_spec _ 65 h).2.2.1,
    (squaresAtPrefix_spec _ 65 h).2.2.2 (by norm_num)⟩

/-- C9: submitting a malformed notation string to any quiz session fails with
`InvalidNotation` and returns the session unchanged — same step index and
same tallies. -/
theorem submitGuess_malformed_unchanged (s : QuizSession) (guess : String)
    (h : wellFormedNotation guess = false) :
    submitGuess s guess = (.error .invalidNotation, s) := by
  unfold submitGuess
  rw [notationToSquare_malformed h]

/-- Witness for C9 on a fresh forward session with the malformed guess
"z9". -/
theorem submitGuess_malformed_unchanged_witness :
    wellFormedNotation "z9" = false ∧
    submitGuess ⟨[], false, 0, 0, 0⟩ "z9" =
      (.error .invalidNotation, ⟨[], false, 0, 0, 0⟩) :=
  ⟨by decide, submitGuess_malformed_unchanged ⟨[], false, 0, 0, 0⟩ "z9" (by decide)⟩

/-- C10 counterexample: with a facts list that itself holds duplicate
entries, `sampleFacts` returns duplicates even for 0 < count ≤ facts.length;
the "pairwise distinct" clause of the claim fails as stated. -/
theorem sampleFacts_duplicate_counterexample :
    (0 : Int) < 2 ∧ (2 : Int) ≤ (((["alpha", "alpha"] : List String)).length : Int) ∧
    ¬ (sampleFacts [0] (["alpha", "alpha"] : List String) 2).1.Nodup := by
  refine ⟨by norm_num, by decide, by decide⟩

/-- C10 (amended): `sampleFacts` returns the empty list for count ≤ 0; for
positive count on a non-empty facts list it returns exactly count elements,
all drawn from facts; and when additionally count ≤ facts.length and the
entries of facts are pairwise distinct, the sample is pairwise distinct
(without replacement). -/
theorem sampleFacts_spec {α : Type} [Inhabited α] (supply : List Nat)
    (facts : List α) (count : Int) :
    (count ≤ 0 → (sampleFacts supply facts count).1 = []) ∧
    (0 < count → facts ≠ [] →
      (sampleFacts supply facts count).1.length = count.toNat ∧
      ∀ x ∈ (sampleFacts supply facts count).1, x ∈ facts) ∧
    (0 < count → count ≤ (facts.length : Int) → facts.Nodup →
      (sampleFacts supply facts count).1.Nodup) := by
  refine ⟨fun h => sampleFacts_nonpos supply facts h, fun hc hf => ?_, ?_⟩
  · exact ⟨sampleFacts_length supply facts hc, sampleFacts_mem supply hf⟩
  · intro hc hle hnd
    exact sampleFacts_nodup supply hc hle hnd

/-- Witness for C10: a negative count, and a sample of two from three
distinct facts. -/
theorem sampleFacts_spec_witness :
    (sampleFacts [0] (["a"] : List String) (-1)).1 = [] ∧
    ((sampleFacts [0, 1] (["a", "b", "c"] : List String) 2).1.length = (2 : Int).toNat ∧
      ∀ x ∈ (sampleFacts [0, 1] (["a", "b", "c"] : List String) 2).1,
        x ∈ (["a", "b", "c"] : List String)) ∧
    (sampleFacts [0, 1] (["a", "b", "c"] : List String) 2).1.Nodup :=
  ⟨(sampleFacts_spec [0] ["a"] (-1)).1 (by norm_num),
    (sampleFacts_spec [0, 1] ["a", "b", "c"] 2).2.1 (by norm_num) (by decide),
    (sampleFacts_spec [0, 1] ["a", "b", "c"] 2).2.2 (by norm_num) (by decide) (by decide)⟩

end KnightRepo
